import Mathlib

/-!
Shallow embedding of the SDOH dashboard's data acquisition / caching /
normalization pipeline (`app.py`, class `CensusDataManager` together with the
`SDOH_METRICS` and `FIPS_TO_ABBREV` tables).

Modelling conventions:
* Values occurring in a parsed JSON response (`response.json()`) are modelled
  by the inductive `PyVal` (null, string, number, array, object).  Numbers are
  modelled by `Rat` (the source values are finite decimal strings).
* Python exceptions are modelled by `Except PyErr`; the source's
  `try/except (ValueError, IndexError)` and `try/except Exception` blocks
  become explicit handlers on the error constructors.
* Time is modelled as a `Nat` number of seconds; `timedelta(weeks=1)` becomes
  the constant `cache_duration = 604800`.  Python computes
  `datetime.now() - cache_time < cache_duration` on signed timedeltas; with
  truncated `Nat` subtraction a future timestamp yields `0 < cache_duration`,
  i.e. fresh, exactly as in Python.
* The two persisted CSV files are modelled record-wise: a `FileContent` is
  either a missing file, an unreadable/corrupt file (any state on which
  `pd.read_csv`/grouping raises, which `load_cache` catches and turns into an
  empty contribution), or a list of rows, each row carrying the injected
  `cache_key` and `timestamp` columns next to the record fields.
-/

set_option maxRecDepth 4000

namespace SDOH

/-- A value inside the parsed JSON body returned by `response.json()`. -/
inductive PyVal where
  | none
  | str (s : String)
  | num (q : Rat)
  | list (items : List PyVal)
  | obj (size : Nat)
deriving Repr

mutual

/-- Decidable equality for `PyVal` (hand-written: the nested `list`
constructor defeats automatic derivation). -/
def PyVal.decEq : (a b : PyVal) → Decidable (a = b)
  | .none, .none => isTrue rfl
  | .none, .str _ => isFalse (fun h => PyVal.noConfusion h)
  | .none, .num _ => isFalse (fun h => PyVal.noConfusion h)
  | .none, .list _ => isFalse (fun h => PyVal.noConfusion h)
  | .none, .obj _ => isFalse (fun h => PyVal.noConfusion h)
  | .str _, .none => isFalse (fun h => PyVal.noConfusion h)
  | .str s, .str t =>
      if h : s = t then isTrue (by rw [h])
      else isFalse (fun e => h (by cases e; rfl))
  | .str _, .num _ => isFalse (fun h => PyVal.noConfusion h)
  | .str _, .list _ => isFalse (fun h => PyVal.noConfusion h)
  | .str _, .obj _ => isFalse (fun h => PyVal.noConfusion h)
  | .num _, .none => isFalse (fun h => PyVal.noConfusion h)
  | .num _, .str _ => isFalse (fun h => PyVal.noConfusion h)
  | .num a, .num b =>
      if h : a = b then isTrue (by rw [h])
      else isFalse (fun e => h (by cases e; rfl))
  | .num _, .list _ => isFalse (fun h => PyVal.noConfusion h)
  | .num _, .obj _ => isFalse (fun h => PyVal.noConfusion h)
  | .list _, .none => isFalse (fun h => PyVal.noConfusion h)
  | .list _, .str _ => isFalse (fun h => PyVal.noConfusion h)
  | .list _, .num _ => isFalse (fun h => PyVal.noConfusion h)
  | .list a, .list b =>
      match PyVal.decEqList a b with
      | isTrue h => isTrue (by rw [h])
      | isFalse h => isFalse (fun e => h (by cases e; rfl))
  | .list _, .obj _ => isFalse (fun h => PyVal.noConfusion h)
  | .obj _, .none => isFalse (fun h => PyVal.noConfusion h)
  | .obj _, .str _ => isFalse (fun h => PyVal.noConfusion h)
  | .obj _, .num _ => isFalse (fun h => PyVal.noConfusion h)
  | .obj _, .list _ => isFalse (fun h => PyVal.noConfusion h)
  | .obj a, .obj b =>
      if h : a = b then isTrue (by rw [h])
      else isFalse (fun e => h (by cases e; rfl))

/-- Decidable equality for lists of `PyVal`. -/
def PyVal.decEqList : (a b : List PyVal) → Decidable (a = b)
  | [], [] => isTrue rfl
  | [], _ :: _ => isFalse (fun h => List.noConfusion h)
  | _ :: _, [] => isFalse (fun h => List.noConfusion h)
  | x :: xs, y :: ys =>
      match PyVal.decEq x y with
      | isFalse h => isFalse (fun e => h (by cases e; rfl))
      | isTrue h1 =>
          match PyVal.decEqList xs ys with
          | isTrue h2 => isTrue (by rw [h1, h2])
          | isFalse h => isFalse (fun e => h (by cases e; rfl))

end

instance : DecidableEq PyVal := PyVal.decEq

/-- The Python exception kinds that the pipeline code can raise or catch. -/
inductive PyErr where
  | indexError
  | valueError
  | typeError
  | attributeError
  | keyError
deriving Repr, DecidableEq

/-- `row[i]` on a Python value: lists index into elements, strings index into
one-character strings, anything else raises `TypeError`. -/
def pyIndex : PyVal → Nat → Except PyErr PyVal
  | .list items, i =>
      match items.get? i with
      | some v => .ok v
      | Option.none => .error .indexError
  | .str s, i =>
      match s.data.get? i with
      | some c => .ok (.str (String.mk [c]))
      | Option.none => .error .indexError
  | _, _ => .error .typeError

/-- `len(data)`: defined on strings, lists and dicts, `TypeError` otherwise. -/
def pyLen : PyVal → Except PyErr Nat
  | .list items => .ok items.length
  | .str s => .ok s.length
  | .obj n => .ok n
  | _ => .error .typeError

/-- `data[1:]` followed by iteration: a list slices to its tail, a string
slices to a string whose iteration yields one-character strings, and any
other value raises `TypeError`. -/
def pyTail : PyVal → Except PyErr (List PyVal)
  | .list items => .ok (items.drop 1)
  | .str s => .ok ((s.data.drop 1).map (fun c => PyVal.str (String.mk [c])))
  | _ => .error .typeError

/-- Numeric value of a list of decimal digits. -/
def digitsVal (l : List Char) : Nat :=
  l.foldl (fun a c => a * 10 + (c.toNat - '0'.toNat)) 0

/-- Decimal fragment of Python `float(str)`: optional sign, digits with an
optional decimal point (at least one digit overall).  The source's upstream
values are finite decimal strings, so exponents / `inf` / `nan` are outside
the modelled fragment and simply fail to parse. -/
def parseUnsigned (l : List Char) : Option Rat :=
  let intPart := l.takeWhile Char.isDigit
  let rest := l.dropWhile Char.isDigit
  match rest with
  | [] => if intPart.isEmpty then Option.none else some (digitsVal intPart : Rat)
  | '.' :: frac =>
      if frac.all Char.isDigit && (!intPart.isEmpty || !frac.isEmpty) then
        some ((digitsVal intPart : Rat) + (digitsVal frac : Rat) / ((10 : Rat) ^ frac.length))
      else Option.none
  | _ => Option.none

/-- Python `float(s)` on a string, with surrounding spaces stripped. -/
def parseFloatString (s : String) : Option Rat :=
  let l := ((s.data.dropWhile (· = ' ')).reverse.dropWhile (· = ' ')).reverse
  match l with
  | '+' :: rest => parseUnsigned rest
  | '-' :: rest => (parseUnsigned rest).map Neg.neg
  | _ => parseUnsigned l

/-- Python `float(x)`: numbers pass through, strings are parsed
(`ValueError` on failure), everything else raises `TypeError`. -/
def pyFloat : PyVal → Except PyErr Rat
  | .num q => .ok q
  | .str s =>
      match parseFloatString s with
      | some q => .ok q
      | Option.none => .error .valueError
  | _ => .error .typeError

/-- Python `str.zfill(width)` on the character list of a string: pad with
leading zeros up to `width`, keeping a leading sign in front of the pad. -/
def zfillList (w : Nat) (l : List Char) : List Char :=
  if w ≤ l.length then l
  else
    match l with
    | '+' :: rest => '+' :: (List.replicate (w - l.length) '0' ++ rest)
    | '-' :: rest => '-' :: (List.replicate (w - l.length) '0' ++ rest)
    | _ => List.replicate (w - l.length) '0' ++ l

/-- Python `str.zfill(width)`. -/
def zfill (w : Nat) (s : String) : String := String.mk (zfillList w s.data)

/-- Python `str.zfill` called on a value: raises `AttributeError` unless the
receiver is a string. -/
def pyZfill (w : Nat) : PyVal → Except PyErr String
  | .str s => .ok (zfill w s)
  | _ => .error .attributeError

/-- `cache_key.endswith('_state')`, the partition test of `save_cache`. -/
def hasStateSuffix (s : String) : Bool :=
  s.data.reverse.take 6 == "_state".data.reverse

/-- One normalized observation, as built by `fetch_census_data`:
state-level rows carry `name`/`fips`/`value`, county-level rows carry
`name`/`county_fips`/`state_fips`/`value`.  The `name` field holds the raw
JSON value the source stores (`name = row[1]` is unvalidated). -/
inductive Rec where
  | state (name : PyVal) (fips : String) (value : Option Rat)
  | county (name : PyVal) (county_fips : String) (state_fips : String) (value : Option Rat)
deriving Repr, DecidableEq

/-- The `value` field of a record. -/
def Rec.value : Rec → Option Rat
  | .state _ _ v => v
  | .county _ _ _ v => v

/-- Entry of the `SDOH_METRICS` configuration table (the Python `variable`
key is named `variableId` here because `variable` is a Lean keyword). -/
structure MetricConfig where
  variableId : String
  endpoint : String
  positive : Bool
  description : String
deriving Repr, DecidableEq

/-- The `SDOH_METRICS` registry from `app.py`. -/
def SDOH_METRICS : List (String × MetricConfig) :=
  [("Median Household Income",
     ⟨"DP03_0062E", "profile", true,
      "Median household income in the past 12 months (in 2022 inflation-adjusted dollars)"⟩),
   ("Poverty Rate",
     ⟨"DP03_0119PE", "profile", false,
      "Percentage of population below poverty level"⟩),
   ("Educational Attainment (Bachelor's+)",
     ⟨"DP02_0065PE", "profile", true,
      "Percentage of population 25+ with bachelor's degree or higher"⟩),
   ("Unemployment Rate",
     ⟨"DP03_0005PE", "profile", false,
      "Unemployment rate for population 16 years and over"⟩),
   ("Health Insurance Coverage",
     ⟨"DP03_0096PE", "profile", true,
      "Percentage of population with health insurance coverage"⟩)]

/-- The `FIPS_TO_ABBREV` jurisdiction table from `app.py`, including the
unpadded duplicate keys of the source. -/
def FIPS_TO_ABBREV : List (String × String) :=
  [("01", "AL"), ("02", "AK"), ("04", "AZ"), ("05", "AR"), ("06", "CA"),
   ("08", "CO"), ("09", "CT"), ("10", "DE"), ("11", "DC"), ("12", "FL"),
   ("13", "GA"), ("15", "HI"), ("16", "ID"), ("17", "IL"), ("18", "IN"),
   ("19", "IA"), ("20", "KS"), ("21", "KY"), ("22", "LA"), ("23", "ME"),
   ("24", "MD"), ("25", "MA"), ("26", "MI"), ("27", "MN"), ("28", "MS"),
   ("29", "MO"), ("30", "MT"), ("31", "NE"), ("32", "NV"), ("33", "NH"),
   ("34", "NJ"), ("35", "NM"), ("36", "NY"), ("37", "NC"), ("38", "ND"),
   ("39", "OH"), ("40", "OK"), ("41", "OR"), ("42", "PA"), ("44", "RI"),
   ("45", "SC"), ("46", "SD"), ("47", "TN"), ("48", "TX"), ("49", "UT"),
   ("50", "VT"), ("51", "VA"), ("53", "WA"), ("54", "WV"), ("55", "WI"),
   ("56", "WY"),
   ("1", "AL"), ("2", "AK"), ("4", "AZ"), ("5", "AR"), ("6", "CA"),
   ("8", "CO"), ("9", "CT")]

/-- `fips in FIPS_TO_ABBREV`: membership test on the dict's keys. -/
def fipsMapped (f : String) : Bool :=
  FIPS_TO_ABBREV.any (fun p => p.1 == f)

/-- The in-memory `cache_data` dictionary: cache key to list of records. -/
abbrev Dict := List (String × List Rec)

/-- Python dict lookup `d[k]` / `k in d` combined: `some` iff present. -/
def dget (d : List (String × α)) (k : String) : Option α :=
  (d.find? (fun p => p.1 == k)).map (fun p => p.2)

/-- Python dict assignment `d[k] = v`: replace in place if the key exists,
append otherwise (insertion order semantics). -/
def dset (d : List (String × α)) (k : String) (v : α) : List (String × α) :=
  if d.any (fun p => p.1 == k) then
    d.map (fun p => if p.1 == k then (k, v) else p)
  else d ++ [(k, v)]

/-- Python `d1.update(d2)`. -/
def dictUpdate (d1 d2 : List (String × α)) : List (String × α) :=
  d2.foldl (fun a p => dset a p.1 p.2) d1

/-- One row of a persisted cache file: the injected `cache_key` and
`timestamp` columns next to the record's own fields. -/
structure Row where
  cache_key : String
  timestamp : Nat
  record : Rec
deriving Repr, DecidableEq

/-- State of one on-disk cache file.  `corrupt` stands for any file on which
reading or grouping raises (the `except` branch of `load_cache`). -/
inductive FileContent where
  | missing
  | corrupt
  | rows (l : List Row)
deriving Repr, DecidableEq

/-- The pair of persisted cache files (`census_state_cache.csv`,
`census_county_cache.csv`). -/
structure FileState where
  stateFile : FileContent
  countyFile : FileContent
deriving Repr, DecidableEq

/-- `self.cache_duration = timedelta(weeks=1)`, in seconds. -/
def cache_duration : Nat := 604800

/-- `df['cache_key'].unique()`: the distinct keys in first-appearance order. -/
def uniqueKeys (rows : List Row) : List String :=
  rows.foldl (fun acc r => if acc.contains r.cache_key then acc else acc ++ [r.cache_key]) []

/-- The per-record transformation applied by `load_cache` when reading a file
back: in the state file the `fips` column is re-padded
(`astype(str).str.zfill(2)`); the county file is read back unchanged. -/
def recNorm (isState : Bool) (r : Rec) : Rec :=
  if isState then
    match r with
    | .state n f v => .state n (zfill 2 f) v
    | c => c
  else r

/-- `recNorm` applied to the record fields of a persisted row. -/
def loadRow (isState : Bool) (r : Row) : Rec :=
  recNorm isState r.record

/-- The contribution of one cache file to `load_cache`'s dictionary: nothing
for a missing, unreadable or empty file; nothing when the first row's
timestamp is stale; otherwise the rows grouped into entries by `cache_key`
(`load_cache`, lines 90-117 of `app.py`). -/
def loadFileEntries (isState : Bool) (now : Nat) : FileContent → List (String × List Rec)
  | .missing => []
  | .corrupt => []
  | .rows [] => []
  | .rows (r0 :: rs) =>
      if now - r0.timestamp < cache_duration then
        (uniqueKeys (r0 :: rs)).map (fun k =>
          (k, ((r0 :: rs).filter (fun r => r.cache_key == k)).map (loadRow isState)))
      else []

/-- `CensusDataManager.load_cache`: build `cache_data` from the state file,
then the county file. -/
def load_cache (now : Nat) (fs : FileState) : Dict :=
  let d1 := (loadFileEntries true now fs.stateFile).foldl (fun a p => dset a p.1 p.2) []
  (loadFileEntries false now fs.countyFile).foldl (fun a p => dset a p.1 p.2) d1

/-- `CensusDataManager.save_cache`: reload the existing entries, merge the
given dictionary over them, partition by the `_state` key suffix, flatten
each partition to rows stamped with the single current timestamp, and
rewrite each file whose partition produced any rows. -/
def save_cache (now : Nat) (data : Dict) (fs : FileState) : FileState :=
  let existing := load_cache now fs
  let merged := dictUpdate existing data
  let state_data := merged.filter (fun p => hasStateSuffix p.1)
  let county_data := merged.filter (fun p => !hasStateSuffix p.1)
  let state_rows := state_data.flatMap (fun p => p.2.map (fun rec => Row.mk p.1 now rec))
  let county_rows := county_data.flatMap (fun p => p.2.map (fun rec => Row.mk p.1 now rec))
  let fs1 :=
    if state_data.isEmpty then fs
    else if state_rows.isEmpty then fs
    else { fs with stateFile := FileContent.rows state_rows }
  if county_data.isEmpty then fs1
  else if county_rows.isEmpty then fs1
  else { fs1 with countyFile := FileContent.rows county_rows }

/-- `row[0] in [None, '', '-']`: the sentinel test guarding the value parse. -/
def isSentinel : PyVal → Bool
  | .none => true
  | .str "" => true
  | .str "-" => true
  | _ => false

/-- `float(row[0]) if row[0] not in [None, '', '-'] else None`: the value
column parse of one row. -/
def rowValue (r0 : PyVal) : Except PyErr (Option Rat) :=
  if isSentinel r0 then .ok Option.none
  else (pyFloat r0).map some

/-- The body of the per-row loop of `fetch_census_data` (lines 213-237),
before exception handling: `Except.error` models an exception escaping the
row, `.ok Option.none` models `continue` (the jurisdiction filter), `.ok
(some rec)` models an appended record. -/
def processRowCore (lvl : String) (row : PyVal) : Except PyErr (Option Rec) := do
  let r0 ← pyIndex row 0
  let value ← rowValue r0
  let name ← pyIndex row 1
  if lvl == "state" then
    let fipsRaw ← pyIndex row 2
    let fips ← pyZfill 2 fipsRaw
    if fipsMapped fips then
      pure (some (Rec.state name fips value))
    else
      pure Option.none
  else
    let sRaw ← pyIndex row 2
    let state_fips ← pyZfill 2 sRaw
    let cRaw ← pyIndex row 3
    let county_fips ← pyZfill 3 cRaw
    pure (some (Rec.county name county_fips state_fips value))

/-- The per-row loop body with its `except (ValueError, IndexError):
continue` handler: those two exceptions skip the row, others escape. -/
def processRow (lvl : String) (row : PyVal) : Except PyErr (Option Rec) :=
  match processRowCore lvl row with
  | .error .valueError => .ok Option.none
  | .error .indexError => .ok Option.none
  | r => r

/-- The whole row loop: accumulate `processed_data` in row order, aborting
on an uncaught per-row exception. -/
def processRows (lvl : String) : List PyVal → Except PyErr (List Rec)
  | [] => .ok []
  | row :: rest => do
      let hd ← processRow lvl row
      let tl ← processRows lvl rest
      match hd with
      | some r => pure (r :: tl)
      | Option.none => pure tl

/-- Result of `requests.get(...)` + `raise_for_status()` + `response.json()`:
`exn` is a raised `RequestException` (transport failure or HTTP error
status), `badJson` a body on which `.json()` raises, `ok` a parsed body. -/
inductive HttpResp where
  | exn
  | badJson
  | ok (body : PyVal)
deriving Repr, DecidableEq

/-- The `try` block of `fetch_census_data` (lines 181-254) together with its
`except` clauses: every exception raised inside it is caught and turned
into an empty result with the cache untouched.  On a successful response
with more than a header row, the surviving rows are normalized, written
through `save_cache`, and returned. -/
def fetch_network (cache_key lvl : String) (resp : HttpResp) (now : Nat)
    (fs : FileState) (cached_data : Dict) : Except PyErr (List Rec) × FileState :=
  match resp with
  | .exn => (.ok [], fs)
  | .badJson => (.ok [], fs)
  | .ok body =>
      match pyLen body with
      | .error _ => (.ok [], fs)
      | .ok n =>
          if 1 < n then
            match pyTail body with
            | .error _ => (.ok [], fs)
            | .ok rows =>
                match processRows lvl rows with
                | .error _ => (.ok [], fs)
                | .ok processed =>
                    (.ok processed, save_cache now (dset cached_data cache_key processed) fs)
          else (.ok [], fs)

/-- `CensusDataManager.fetch_census_data`: build the cache key, load the
cache, return a hit immediately; otherwise resolve the metric in
`SDOH_METRICS` (an unregistered name raises `KeyError` here, outside the
`try` block) and run the network path. -/
def fetch_census_data (metric_key lvl : String) (resp : HttpResp) (now : Nat)
    (fs : FileState) : Except PyErr (List Rec) × FileState :=
  let cache_key := metric_key ++ "_" ++ lvl
  let cached_data := load_cache now fs
  match dget cached_data cache_key with
  | some recs => (.ok recs, fs)
  | Option.none =>
      match dget SDOH_METRICS metric_key with
      | Option.none => (.error .keyError, fs)
      | some _cfg => fetch_network cache_key lvl resp now fs cached_data

/-- A file state is well-keyed when every row of the state file has a
`_state`-suffixed cache key and no row of the county file does — the
invariant every file written by `save_cache` satisfies, since it partitions
keys by exactly this test. -/
def wellKeyed (fs : FileState) : Prop :=
  (∀ l, fs.stateFile = FileContent.rows l → ∀ r ∈ l, hasStateSuffix r.cache_key = true) ∧
  (∀ l, fs.countyFile = FileContent.rows l → ∀ r ∈ l, hasStateSuffix r.cache_key = false)

/-! ## General lemmas about the embedded operations -/

@[simp]
theorem except_bind_ok (a : α) (f : α → Except ε β) :
    (Except.ok a : Except ε α) >>= f = f a := rfl

@[simp]
theorem except_bind_error (e : ε) (f : α → Except ε β) :
    (Except.error e : Except ε α) >>= f = Except.error e := rfl

@[simp]
theorem except_pure_def (a : α) : (pure a : Except ε α) = Except.ok a := rfl

@[simp]
theorem dget_nil (k : String) : dget ([] : List (String × α)) k = Option.none := rfl

theorem dget_cons (p : String × α) (d : List (String × α)) (k : String) :
    dget (p :: d) k = if p.1 == k then some p.2 else dget d k := by
  simp only [dget, List.find?_cons]
  cases h : (p.1 == k) <;> simp [h]

theorem dget_append (d1 d2 : List (String × α)) (k : String) :
    dget (d1 ++ d2) k = (dget d1 k).or (dget d2 k) := by
  unfold dget
  rw [List.find?_append]
  cases d1.find? (fun p => p.1 == k) <;> simp

theorem dget_eq_none_of_all_ne (d : List (String × α)) (k : String)
    (h : ∀ p ∈ d, p.1 ≠ k) : dget d k = Option.none := by
  unfold dget
  rw [List.find?_eq_none.mpr]
  · rfl
  · intro p hp hpk
    exact h p hp (by simpa using hpk)

theorem dget_replace_self (d : List (String × α)) (k : String) (v : α)
    (h : d.any (fun p => p.1 == k) = true) :
    dget (d.map (fun p => if p.1 == k then (k, v) else p)) k = some v := by
  induction d with
  | nil => simp at h
  | cons p d ih =>
    rw [List.map_cons, dget_cons]
    by_cases hp : (p.1 == k) = true
    · rw [if_pos hp]
      simp
    · rw [if_neg hp]
      simp only [List.any_cons] at h
      rcases Bool.or_eq_true_iff.mp h with h1 | h2
      · exact absurd h1 hp
      · simp only [hp, if_false]
        exact ih h2

theorem dget_replace_ne (d : List (String × α)) (k : String) (v : α) (k' : String)
    (hne : k ≠ k') :
    dget (d.map (fun p => if p.1 == k then (k, v) else p)) k' = dget d k' := by
  induction d with
  | nil => rfl
  | cons p d ih =>
    rw [List.map_cons, dget_cons, dget_cons]
    by_cases hp : (p.1 == k) = true
    · rw [if_pos hp]
      have h1 : (k == k') = false := beq_eq_false_iff_ne.mpr hne
      have h2 : (p.1 == k') = false :=
        beq_eq_false_iff_ne.mpr (by rw [eq_of_beq hp]; exact hne)
      simp only [h1, h2, if_false]
      exact ih
    · rw [if_neg hp]
      by_cases hp' : (p.1 == k') = true
      · simp [hp']
      · simp only [hp', if_false]
        exact ih

theorem dget_dset_self (d : List (String × α)) (k : String) (v : α) :
    dget (dset d k v) k = some v := by
  unfold dset
  by_cases h : d.any (fun p => p.1 == k)
  · rw [if_pos h]
    exact dget_replace_self d k v h
  · rw [if_neg h, dget_append]
    have hd : dget d k = Option.none := by
      apply dget_eq_none_of_all_ne
      intro p hp hpk
      exact h (List.any_eq_true.mpr ⟨p, hp, by simp [hpk]⟩)
    simp [hd, dget_cons]

theorem dget_dset_ne (d : List (String × α)) (k : String) (v : α) (k' : String)
    (hne : k ≠ k') : dget (dset d k v) k' = dget d k' := by
  unfold dset
  by_cases h : d.any (fun p => p.1 == k)
  · rw [if_pos h]
    exact dget_replace_ne d k v k' hne
  · rw [if_neg h, dget_append]
    have hone : dget [(k, v)] k' = Option.none := by
      apply dget_eq_none_of_all_ne
      simpa using hne
    rw [hone]
    cases dget d k' <;> rfl

theorem dget_setAll (entries : List (String × α)) (init : List (String × α)) (k : String)
    (hnd : (entries.map Prod.fst).Nodup) :
    dget (entries.foldl (fun a p => dset a p.1 p.2) init) k =
      match entries.find? (fun p => p.1 == k) with
      | some p => some p.2
      | Option.none => dget init k := by
  induction entries generalizing init with
  | nil => simp
  | cons e es ih =>
    simp only [List.map_cons, List.nodup_cons] at hnd
    simp only [List.foldl_cons]
    rw [ih _ hnd.2]
    by_cases he : e.1 == k
    · have hek : e.1 = k := eq_of_beq he
      have hes : es.find? (fun p => p.1 == k) = Option.none := by
        rw [List.find?_eq_none]
        intro p hp hpk
        apply hnd.1
        rw [hek, ← eq_of_beq hpk]
        exact List.mem_map_of_mem Prod.fst hp
      rw [hes]
      simp only [List.find?_cons, he]
      subst hek
      simp [dget_dset_self]
    · simp only [List.find?_cons, he]
      cases hf : es.find? (fun p => p.1 == k) with
      | some p => simp
      | none =>
        simp only []
        exact dget_dset_ne init e.1 e.2 k (fun hh => he (hh ▸ beq_self_eq_true e.1))

theorem dkeys_dset (d : List (String × α)) (k : String) (v : α) :
    (dset d k v).map Prod.fst =
      if d.any (fun p => p.1 == k) then d.map Prod.fst else d.map Prod.fst ++ [k] := by
  unfold dset
  by_cases h : d.any (fun p => p.1 == k)
  · simp only [h, if_true]
    rw [List.map_map]
    apply List.map_congr_left
    intro p hp
    by_cases hp1 : p.1 == k
    · simp [Function.comp, hp1, (eq_of_beq hp1).symm]
    · simp [Function.comp, hp1]
  · simp [h]

theorem nodupKeys_dset (d : List (String × α)) (k : String) (v : α)
    (h : (d.map Prod.fst).Nodup) : ((dset d k v).map Prod.fst).Nodup := by
  rw [dkeys_dset]
  by_cases ha : d.any (fun p => p.1 == k)
  · simpa [ha] using h
  · have hk : k ∉ d.map Prod.fst := by
      intro hmem
      obtain ⟨p, hp, hpk⟩ := List.mem_map.mp hmem
      exact ha (List.any_eq_true.mpr ⟨p, hp, by simp [hpk]⟩)
    rw [if_neg ha, List.nodup_append]
    refine ⟨h, List.nodup_singleton k, ?_⟩
    intro a hmem hone
    rw [List.mem_singleton.mp hone] at hmem
    exact hk hmem

theorem nodupKeys_setAll (entries init : List (String × α))
    (h : (init.map Prod.fst).Nodup) :
    ((entries.foldl (fun a p => dset a p.1 p.2) init).map Prod.fst).Nodup := by
  induction entries generalizing init with
  | nil => simpa using h
  | cons e es ih => exact ih _ (nodupKeys_dset init e.1 e.2 h)

theorem mem_uniqueKeys_aux (l : List Row) (acc : List String) (k : String) :
    k ∈ l.foldl
      (fun acc r => if acc.contains r.cache_key then acc else acc ++ [r.cache_key]) acc ↔
      k ∈ acc ∨ ∃ r ∈ l, r.cache_key = k := by
  induction l generalizing acc with
  | nil => simp
  | cons r l ih =>
    simp only [List.foldl_cons]
    by_cases hc : acc.contains r.cache_key
    · rw [if_pos hc, ih]
      have hmem : r.cache_key ∈ acc := by
        simpa using hc
      constructor
      · rintro (h | h)
        · exact Or.inl h
        · obtain ⟨r', hr', hk⟩ := h
          exact Or.inr ⟨r', List.mem_cons_of_mem r hr', hk⟩
      · rintro (h | h)
        · exact Or.inl h
        · obtain ⟨r', hr', hk⟩ := h
          rcases List.mem_cons.mp hr' with rfl | hr'
          · exact Or.inl (hk ▸ hmem)
          · exact Or.inr ⟨r', hr', hk⟩
    · rw [if_neg hc, ih]
      constructor
      · rintro (h | h)
        · rcases List.mem_append.mp h with h' | h'
          · exact Or.inl h'
          · exact Or.inr ⟨r, List.mem_cons_self r l, (List.mem_singleton.mp h').symm⟩
        · obtain ⟨r', hr', hk⟩ := h
          exact Or.inr ⟨r', List.mem_cons_of_mem r hr', hk⟩
      · rintro (h | h)
        · exact Or.inl (List.mem_append.mpr (Or.inl h))
        · obtain ⟨r', hr', hk⟩ := h
          rcases List.mem_cons.mp hr' with rfl | hr'
          · exact Or.inl (List.mem_append.mpr (Or.inr (List.mem_singleton.mpr hk.symm)))
          · exact Or.inr ⟨r', hr', hk⟩

theorem mem_uniqueKeys (l : List Row) (k : String) :
    k ∈ uniqueKeys l ↔ ∃ r ∈ l, r.cache_key = k := by
  unfold uniqueKeys
  rw [mem_uniqueKeys_aux]
  simp

theorem uniqueKeys_nodup_aux (l : List Row) (acc : List String) (h : acc.Nodup) :
    (l.foldl
      (fun acc r => if acc.contains r.cache_key then acc else acc ++ [r.cache_key]) acc).Nodup := by
  induction l generalizing acc with
  | nil => simpa using h
  | cons r l ih =>
    simp only [List.foldl_cons]
    by_cases hc : acc.contains r.cache_key
    · rw [if_pos hc]
      exact ih acc h
    · rw [if_neg hc]
      apply ih
      rw [List.nodup_append]
      refine ⟨h, List.nodup_singleton _, ?_⟩
      intro a hmem hone
      rw [List.mem_singleton.mp hone] at hmem
      exact hc (by simpa using hmem)

theorem uniqueKeys_nodup (l : List Row) : (uniqueKeys l).Nodup :=
  uniqueKeys_nodup_aux l [] List.nodup_nil

theorem find?_beq_self (keys : List String) (k : String) :
    keys.find? (fun a => a == k) = if k ∈ keys then some k else Option.none := by
  induction keys with
  | nil => simp
  | cons a keys ih =>
    rw [List.find?_cons]
    by_cases ha : (a == k) = true
    · have hak : a = k := eq_of_beq ha
      simp [ha, hak]
    · have hne : a ≠ k := fun h => ha (by simp [h])
      simp only [ha]
      rw [ih]
      by_cases hk : k ∈ keys
      · simp [hk, List.mem_cons]
      · have hnotc : k ∉ a :: keys := by
          simp only [List.mem_cons, not_or]
          exact ⟨fun h => hne h.symm, hk⟩
        simp [hk, hnotc]

/-- Unfolding equation of `loadFileEntries` on a nonempty row list. -/
theorem loadFileEntries_cons (b : Bool) (now : Nat) (r0 : Row) (rs : List Row) :
    loadFileEntries b now (.rows (r0 :: rs)) =
      if now - r0.timestamp < cache_duration then
        (uniqueKeys (r0 :: rs)).map (fun k =>
          (k, ((r0 :: rs).filter (fun r => r.cache_key == k)).map (loadRow b)))
      else [] := rfl

/-- Keys of a file's loaded entries are exactly its distinct `cache_key`s. -/
theorem loadFileEntries_keys (b : Bool) (now : Nat) (r0 : Row) (rs : List Row)
    (hfresh : now - r0.timestamp < cache_duration) :
    (loadFileEntries b now (.rows (r0 :: rs))).map Prod.fst = uniqueKeys (r0 :: rs) := by
  rw [loadFileEntries_cons, if_pos hfresh, List.map_map]
  exact List.map_id _

/-- `find?` over a file's loaded entries: present iff some row has the key,
and then the value is the filtered, transformed row group. -/
theorem find?_loadFileEntries (b : Bool) (now : Nat) (r0 : Row) (rs : List Row) (k : String)
    (hfresh : now - r0.timestamp < cache_duration) :
    (loadFileEntries b now (.rows (r0 :: rs))).find? (fun p => p.1 == k) =
      if (r0 :: rs).any (fun r => r.cache_key == k) then
        some (k, ((r0 :: rs).filter (fun r => r.cache_key == k)).map (loadRow b))
      else Option.none := by
  rw [loadFileEntries_cons, if_pos hfresh, List.find?_map]
  have hcomp : ((fun p : String × List Rec => p.1 == k) ∘
      (fun k' => (k', ((r0 :: rs).filter (fun r => r.cache_key == k')).map (loadRow b)))) =
      (fun a => a == k) := rfl
  rw [hcomp, find?_beq_self]
  by_cases hmem : k ∈ uniqueKeys (r0 :: rs)
  · have hany : (r0 :: rs).any (fun r => r.cache_key == k) = true := by
      obtain ⟨r, hr, hk⟩ := (mem_uniqueKeys _ _).mp hmem
      exact List.any_eq_true.mpr ⟨r, hr, by simp [hk]⟩
    rw [if_pos hmem, if_pos hany]
    rfl
  · have hany : (r0 :: rs).any (fun r => r.cache_key == k) = false := by
      rw [Bool.eq_false_iff]
      intro hany
      obtain ⟨r, hr, hk⟩ := List.any_eq_true.mp hany
      exact hmem ((mem_uniqueKeys _ _).mpr ⟨r, hr, eq_of_beq hk⟩)
    rw [if_neg hmem]
    simp [hany]

theorem le_length_zfillList (w : Nat) (l : List Char) : w ≤ (zfillList w l).length := by
  unfold zfillList
  by_cases h : w ≤ l.length
  · rw [if_pos h]
    exact h
  · rw [if_neg h]
    push_neg at h
    split <;> simp <;> omega

theorem zfillList_of_le (w : Nat) (l : List Char) (h : w ≤ l.length) :
    zfillList w l = l := by
  unfold zfillList
  rw [if_pos h]

theorem zfill_zfill (w : Nat) (s : String) : zfill w (zfill w s) = zfill w s := by
  show String.mk (zfillList w (zfillList w s.data)) = String.mk (zfillList w s.data)
  congr 1
  exact zfillList_of_le w (zfillList w s.data) (le_length_zfillList w s.data)

theorem recNorm_recNorm (b : Bool) (r : Rec) : recNorm b (recNorm b r) = recNorm b r := by
  cases b with
  | false => rfl
  | true => cases r <;> simp [recNorm, zfill_zfill]

/-- Records read from a cache file are already normalized: re-normalizing
them with the same file kind is the identity. -/
theorem map_recNorm_map_loadRow (b : Bool) (raw : List Row) :
    (raw.map (loadRow b)).map (recNorm b) = raw.map (loadRow b) := by
  rw [List.map_map]
  apply List.map_congr_left
  intro r _
  exact recNorm_recNorm b r.record

def fsC1 : FileState :=
  ⟨.rows [⟨"Old_state", 0, .state (.str "A") "01" (some 1)⟩,
          ⟨"Fresh_state", 604800, .state (.str "B") "02" (some 2)⟩], .missing⟩

/-- **C1, counterexample.** The claim says staleness is decided per entry
from that entry's own stored timestamp, so an unexpired entry is returned
even when another entry of the same file is expired.  In the code the whole
file is validated against the FIRST row's timestamp: here the row of
`"Fresh_state"` carries a timestamp of age `0` (unexpired), yet its entry is
absent because the first row of the file is expired. -/
theorem C1_claim_counterexample :
    (604800 - 604800 < cache_duration) ∧
    dget (load_cache 604800 fsC1) "Fresh_state" = Option.none := by
  constructor
  · decide
  · rfl

/-- **C1, amended.** On load the store does group rows into entries by
cache key, but staleness is validated per FILE, from each file's first
row's timestamp alone, and the two files are validated independently of
each other: a key resolves to the county file's grouped, normalized rows
when that file's first-row timestamp is fresh and the key occurs there
(county entries are assigned after state entries, so they shadow a
same-keyed state entry, as in the source's dict build order); otherwise to
the state file's group under the same per-file conditions on the state
file; otherwise the key is absent.  A stale first row hides every entry of
its own file — whatever the timestamps of the other rows — and leaves the
other file's entries untouched. -/
theorem C1_amended_per_file_staleness (now : Nat) (s0 c0 : Row) (ss cs : List Row)
    (k : String) :
    dget (load_cache now ⟨.rows (s0 :: ss), .rows (c0 :: cs)⟩) k =
      if now - c0.timestamp < cache_duration ∧
          (c0 :: cs).any (fun r => r.cache_key == k) = true then
        some (((c0 :: cs).filter (fun r => r.cache_key == k)).map (loadRow false))
      else if now - s0.timestamp < cache_duration ∧
          (s0 :: ss).any (fun r => r.cache_key == k) = true then
        some (((s0 :: ss).filter (fun r => r.cache_key == k)).map (loadRow true))
      else Option.none := by
  have hstate : dget ((loadFileEntries true now (.rows (s0 :: ss))).foldl
      (fun a p => dset a p.1 p.2) []) k =
      (if now - s0.timestamp < cache_duration ∧
          (s0 :: ss).any (fun r => r.cache_key == k) = true then
        some (((s0 :: ss).filter (fun r => r.cache_key == k)).map (loadRow true))
      else Option.none) := by
    by_cases hfresh : now - s0.timestamp < cache_duration
    · rw [dget_setAll]
      · rw [find?_loadFileEntries true now s0 ss k hfresh]
        by_cases hany : (s0 :: ss).any (fun r => r.cache_key == k) = true
        · rw [if_pos hany, if_pos ⟨hfresh, hany⟩]
        · rw [if_neg hany, if_neg (fun h => hany h.2)]
          rfl
      · rw [loadFileEntries_keys true now s0 ss hfresh]
        exact uniqueKeys_nodup _
    · have hempty : loadFileEntries true now (.rows (s0 :: ss)) = [] := by
        rw [loadFileEntries_cons, if_neg hfresh]
      rw [hempty, if_neg (fun h => hfresh h.1)]
      rfl
  show dget ((loadFileEntries false now (FileContent.rows (c0 :: cs))).foldl
      (fun a p => dset a p.1 p.2)
      ((loadFileEntries true now (FileContent.rows (s0 :: ss))).foldl
        (fun a p => dset a p.1 p.2) [])) k = _
  by_cases hcf : now - c0.timestamp < cache_duration
  · rw [dget_setAll]
    · rw [find?_loadFileEntries false now c0 cs k hcf]
      by_cases hany : (c0 :: cs).any (fun r => r.cache_key == k) = true
      · rw [if_pos hany, if_pos ⟨hcf, hany⟩]
      · rw [if_neg hany, if_neg (fun h => hany h.2)]
        exact hstate
    · rw [loadFileEntries_keys false now c0 cs hcf]
      exact uniqueKeys_nodup _
  · have hempty : loadFileEntries false now (.rows (c0 :: cs)) = [] := by
      rw [loadFileEntries_cons, if_neg hcf]
    rw [hempty, if_neg (fun h => hcf h.1)]
    exact hstate

/-! ## Claim theorems: warm-cache and error paths of `fetch_census_data` -/

/-- **C2.** For every registered metric and scope, `fetch` is idempotent
while the cache is warm: if the persisted files hold an unexpired entry for
the key at both call instants, both calls return exactly that record list,
leave the files untouched, and neither result depends on the network
response (so the second call performs no observable network request). -/
theorem C2_fetch_idempotent_warm_cache (m lvl : String) (resp1 resp2 : HttpResp)
    (now1 now2 : Nat) (fs : FileState) (recs : List Rec)
    (_hreg : ∃ cfg, dget SDOH_METRICS m = some cfg)
    (h1 : dget (load_cache now1 fs) (m ++ "_" ++ lvl) = some recs)
    (h2 : dget (load_cache now2 fs) (m ++ "_" ++ lvl) = some recs) :
    fetch_census_data m lvl resp1 now1 fs = (.ok recs, fs) ∧
    fetch_census_data m lvl resp2 now2 fs = (.ok recs, fs) := by
  constructor <;> simp [fetch_census_data, h1, h2]

def fsC2 : FileState :=
  ⟨.rows [⟨"Poverty Rate_state", 500, .state (.str "Alabama") "01" (some 5)⟩], .missing⟩

theorem C2_witness :
    fetch_census_data "Poverty Rate" "state" .exn 500 fsC2 =
      (.ok [Rec.state (.str "Alabama") "01" (some 5)], fsC2) ∧
    fetch_census_data "Poverty Rate" "state" .badJson 600 fsC2 =
      (.ok [Rec.state (.str "Alabama") "01" (some 5)], fsC2) :=
  C2_fetch_idempotent_warm_cache "Poverty Rate" "state" .exn .badJson 500 600 fsC2
    [Rec.state (.str "Alabama") "01" (some 5)] ⟨_, rfl⟩ rfl rfl

/-- **C4.** When the network call fails (transport error or HTTP error
status, both raising `RequestException`), a cache-missing `fetch` returns an
empty list without propagating an exception, and the persisted files are
unchanged — no failure is cached. -/
theorem C4_network_failure_empty_no_cache (m lvl : String) (now : Nat) (fs : FileState)
    (hreg : ∃ cfg, dget SDOH_METRICS m = some cfg)
    (hmiss : dget (load_cache now fs) (m ++ "_" ++ lvl) = Option.none) :
    fetch_census_data m lvl .exn now fs = (.ok [], fs) := by
  obtain ⟨cfg, hcfg⟩ := hreg
  simp [fetch_census_data, hmiss, hcfg, fetch_network]

theorem C4_witness :
    fetch_census_data "Poverty Rate" "state" .exn 0 ⟨.missing, .missing⟩ =
      (.ok [], ⟨.missing, .missing⟩) :=
  C4_network_failure_empty_no_cache "Poverty Rate" "state" 0 ⟨.missing, .missing⟩
    ⟨_, rfl⟩ rfl

/-- **C6.** A successful response consisting of only the header row makes a
cache-missing `fetch` return the empty list, leave the files untouched, and
leave no readable cache entry for the key. -/
theorem C6_header_only_empty_no_cache (m lvl : String) (now : Nat) (fs : FileState)
    (hdr : PyVal)
    (hreg : ∃ cfg, dget SDOH_METRICS m = some cfg)
    (hmiss : dget (load_cache now fs) (m ++ "_" ++ lvl) = Option.none) :
    fetch_census_data m lvl (.ok (.list [hdr])) now fs = (.ok [], fs) ∧
    dget (load_cache now (fetch_census_data m lvl (.ok (.list [hdr])) now fs).2)
      (m ++ "_" ++ lvl) = Option.none := by
  obtain ⟨cfg, hcfg⟩ := hreg
  have h : fetch_census_data m lvl (.ok (.list [hdr])) now fs = (.ok [], fs) := by
    simp [fetch_census_data, hmiss, hcfg, fetch_network, pyLen]
  exact ⟨h, by rw [h]; exact hmiss⟩

theorem C6_witness :
    fetch_census_data "Unemployment Rate" "state" (.ok (.list [.str "hdr"])) 3
      ⟨.missing, .missing⟩ = (.ok [], ⟨.missing, .missing⟩) ∧
    dget (load_cache 3 (fetch_census_data "Unemployment Rate" "state"
      (.ok (.list [.str "hdr"])) 3 ⟨.missing, .missing⟩).2)
      ("Unemployment Rate" ++ "_" ++ "state") = Option.none :=
  C6_header_only_empty_no_cache "Unemployment Rate" "state" 3 ⟨.missing, .missing⟩
    (.str "hdr") ⟨_, rfl⟩ rfl

def fsC7 : FileState :=
  ⟨.rows [⟨"Bogus_state", 1000, .state (.str "X") "06" (some 1)⟩], .missing⟩

/-- **C7, counterexample.** The claim says an unregistered metric name makes
`fetch` fail before the cache store is consulted, and in particular never
returns cached records.  In the code the cache is consulted first: with a
persisted entry under the key `"Bogus_state"`, `fetch("Bogus", "state")`
returns the cached records even though `"Bogus"` is not registered. -/
theorem C7_claim_counterexample :
    dget SDOH_METRICS "Bogus" = Option.none ∧
    fetch_census_data "Bogus" "state" .exn 1000 fsC7 =
      (.ok [Rec.state (.str "X") "06" (some 1)], fsC7) := by
  constructor <;> rfl

/-- **C7, amended.** `fetch` consults the cache store before resolving the
metric: with an unregistered metric name, a cache hit returns the cached
records (and no exception), while a cache miss raises `KeyError`
(`UnknownMetric`) without any network activity. -/
theorem C7_cache_checked_before_registry (m lvl : String) (resp : HttpResp)
    (now : Nat) (fs : FileState)
    (hunreg : dget SDOH_METRICS m = Option.none) :
    (∀ recs, dget (load_cache now fs) (m ++ "_" ++ lvl) = some recs →
      fetch_census_data m lvl resp now fs = (.ok recs, fs)) ∧
    (dget (load_cache now fs) (m ++ "_" ++ lvl) = Option.none →
      fetch_census_data m lvl resp now fs = (.error .keyError, fs)) := by
  constructor
  · intro recs hhit
    simp [fetch_census_data, hhit]
  · intro hmiss
    simp [fetch_census_data, hmiss, hunreg]

theorem C7_amended_witness :
    fetch_census_data "Bogus" "state" .exn 0 ⟨.missing, .missing⟩ =
      (.error .keyError, ⟨.missing, .missing⟩) :=
  (C7_cache_checked_before_registry "Bogus" "state" .exn 0 ⟨.missing, .missing⟩ rfl).2 rfl

/-- **C8.** An entry whose timestamp is exactly `now - retention` (the whole
file shares the first row's timestamp verdict) is treated as expired on
read: the loaded cache is empty and a fetch at that instant takes the
network path (refetch) instead of returning the cached records. -/
theorem C8_expiry_boundary_refetch (m lvl : String) (resp : HttpResp)
    (r0 : Row) (rs : List Row)
    (hreg : ∃ cfg, dget SDOH_METRICS m = some cfg) :
    load_cache (r0.timestamp + cache_duration) ⟨.rows (r0 :: rs), .missing⟩ = [] ∧
    fetch_census_data m lvl resp (r0.timestamp + cache_duration)
        ⟨.rows (r0 :: rs), .missing⟩ =
      fetch_network (m ++ "_" ++ lvl) lvl resp (r0.timestamp + cache_duration)
        ⟨.rows (r0 :: rs), .missing⟩ [] := by
  obtain ⟨cfg, hcfg⟩ := hreg
  have hload : load_cache (r0.timestamp + cache_duration) ⟨.rows (r0 :: rs), .missing⟩ = [] := by
    simp [load_cache, loadFileEntries, Nat.add_sub_cancel_left]
  refine ⟨hload, ?_⟩
  simp [fetch_census_data, hload, hcfg]

theorem C8_witness :
    load_cache (0 + cache_duration)
      ⟨.rows [⟨"Poverty Rate_state", 0, .state (.str "Alabama") "01" (some 5)⟩], .missing⟩ = [] ∧
    fetch_census_data "Poverty Rate" "state" .exn (0 + cache_duration)
        ⟨.rows [⟨"Poverty Rate_state", 0, .state (.str "Alabama") "01" (some 5)⟩], .missing⟩ =
      fetch_network ("Poverty Rate" ++ "_" ++ "state") "state" .exn (0 + cache_duration)
        ⟨.rows [⟨"Poverty Rate_state", 0, .state (.str "Alabama") "01" (some 5)⟩], .missing⟩ [] :=
  C8_expiry_boundary_refetch "Poverty Rate" "state" .exn
    ⟨"Poverty Rate_state", 0, .state (.str "Alabama") "01" (some 5)⟩ [] ⟨_, rfl⟩

/-- **C10.** For every registered metric name, any scope, any network
response (failure, malformed JSON, arbitrary body shape) and any state of
the persisted files, `fetch_census_data` returns normally with a list: no
exception escapes its boundary. -/
theorem C10_fetch_total (m lvl : String) (resp : HttpResp) (now : Nat) (fs : FileState)
    (hreg : ∃ cfg, dget SDOH_METRICS m = some cfg) :
    ∃ recs fs2, fetch_census_data m lvl resp now fs = (.ok recs, fs2) := by
  obtain ⟨cfg, hcfg⟩ := hreg
  cases hdg : dget (load_cache now fs) (m ++ "_" ++ lvl) with
  | some recs => exact ⟨recs, fs, by simp [fetch_census_data, hdg]⟩
  | none =>
    have hnet : fetch_census_data m lvl resp now fs =
        fetch_network (m ++ "_" ++ lvl) lvl resp now fs (load_cache now fs) := by
      simp [fetch_census_data, hdg, hcfg]
    rw [hnet]
    cases resp with
    | exn => exact ⟨[], fs, rfl⟩
    | badJson => exact ⟨[], fs, rfl⟩
    | ok body =>
      cases hlen : pyLen body with
      | error e => exact ⟨[], fs, by simp [fetch_network, hlen]⟩
      | ok n =>
        by_cases hn : 1 < n
        · cases htail : pyTail body with
          | error e => exact ⟨[], fs, by simp [fetch_network, hlen, hn, htail]⟩
          | ok rows =>
            cases hpr : processRows lvl rows with
            | error e => exact ⟨[], fs, by simp [fetch_network, hlen, hn, htail, hpr]⟩
            | ok processed =>
              exact ⟨processed,
                save_cache now (dset (load_cache now fs) (m ++ "_" ++ lvl) processed) fs,
                by simp [fetch_network, hlen, hn, htail, hpr]⟩
        · exact ⟨[], fs, by simp [fetch_network, hlen, hn]⟩

theorem C10_witness :
    ∃ recs fs2,
      fetch_census_data "Health Insurance Coverage" "state"
        (.ok (.list [.obj 2, .num 7, .str "xy", .list [.none]])) 42
        ⟨.corrupt, .rows [⟨"k", 0, .county (.num 1) "001" "06" Option.none⟩]⟩ =
      (.ok recs, fs2) :=
  C10_fetch_total "Health Insurance Coverage" "state"
    (.ok (.list [.obj 2, .num 7, .str "xy", .list [.none]])) 42
    ⟨.corrupt, .rows [⟨"k", 0, .county (.num 1) "001" "06" Option.none⟩]⟩ ⟨_, rfl⟩

/-! ## Row-level normalization claims -/

/-- **C3.** A row whose value field is one of the absent sentinels
(`None`, `""`, `"-"`) is not a parse failure: provided its identity fields
parse (and, at state level, the padded area code maps to a recognized
jurisdiction — the claim's territory exception), the row is kept as a
record with `value = absent`. -/
theorem C3_sentinel_value_kept_absent (lvl : String) (row : PyVal) (r0 nm : PyVal)
    (h0 : pyIndex row 0 = .ok r0)
    (hsent : r0 = PyVal.none ∨ r0 = PyVal.str "" ∨ r0 = PyVal.str "-")
    (h1 : pyIndex row 1 = .ok nm)
    (hid : (lvl = "state" ∧ ∃ f, pyIndex row 2 = .ok (.str f) ∧
              fipsMapped (zfill 2 f) = true) ∨
           (lvl ≠ "state" ∧ ∃ s c, pyIndex row 2 = .ok (.str s) ∧
              pyIndex row 3 = .ok (.str c))) :
    ∃ rec, processRow lvl row = .ok (some rec) ∧ rec.value = Option.none := by
  have hs : isSentinel r0 = true := by
    rcases hsent with rfl | rfl | rfl <;> rfl
  have hv : rowValue r0 = .ok Option.none := by
    unfold rowValue
    rw [if_pos hs]
  rcases hid with ⟨hlvl, f, h2, hf⟩ | ⟨hlvl, s2, s3, h2, h3⟩
  · subst hlvl
    refine ⟨Rec.state nm (zfill 2 f) Option.none, ?_, rfl⟩
    unfold processRow processRowCore
    rw [h0]
    simp only [except_bind_ok]
    rw [hv]
    simp only [except_bind_ok]
    rw [h1]
    simp only [except_bind_ok, beq_self_eq_true, if_true]
    rw [h2]
    simp only [except_bind_ok, pyZfill]
    rw [if_pos hf]
    rfl
  · have hb : (lvl == "state") = false := beq_eq_false_iff_ne.mpr hlvl
    refine ⟨Rec.county nm (zfill 3 s3) (zfill 2 s2) Option.none, ?_, rfl⟩
    unfold processRow processRowCore
    rw [h0]
    simp only [except_bind_ok]
    rw [hv]
    simp only [except_bind_ok]
    rw [h1]
    simp only [except_bind_ok, hb, Bool.false_eq_true, if_false]
    rw [h2]
    simp only [except_bind_ok, pyZfill]
    rw [h3]
    simp only [except_bind_ok, pyZfill]
    rfl

theorem C3_witness :
    ∃ rec, processRow "state" (.list [.str "-", .str "Alabama", .str "01"]) =
      .ok (some rec) ∧ rec.value = Option.none :=
  C3_sentinel_value_kept_absent "state" (.list [.str "-", .str "Alabama", .str "01"])
    (.str "-") (.str "Alabama") rfl (Or.inr (Or.inr rfl)) rfl
    (Or.inl ⟨rfl, "01", rfl, rfl⟩)

theorem processRowCore_state_some (row : PyVal) (rec : Rec)
    (h : processRowCore "state" row = .ok (some rec)) :
    ∃ n f v, rec = Rec.state n f v ∧ fipsMapped f = true := by
  unfold processRowCore at h
  cases h0 : pyIndex row 0 with
  | error e => rw [h0] at h; simp at h
  | ok r0 =>
    rw [h0] at h
    simp only [except_bind_ok] at h
    cases hv : rowValue r0 with
    | error e => rw [hv] at h; simp at h
    | ok value =>
      rw [hv] at h
      simp only [except_bind_ok] at h
      cases h1 : pyIndex row 1 with
      | error e => rw [h1] at h; simp at h
      | ok name =>
        rw [h1] at h
        simp only [except_bind_ok, beq_self_eq_true, if_true] at h
        cases h2 : pyIndex row 2 with
        | error e => rw [h2] at h; simp at h
        | ok fr =>
          rw [h2] at h
          simp only [except_bind_ok] at h
          cases hz : pyZfill 2 fr with
          | error e => rw [hz] at h; simp at h
          | ok fips =>
            rw [hz] at h
            simp only [except_bind_ok] at h
            by_cases hf : fipsMapped fips = true
            · rw [if_pos hf] at h
              simp only [except_pure_def, Except.ok.injEq, Option.some.injEq] at h
              exact ⟨name, fips, value, h.symm, hf⟩
            · rw [if_neg hf] at h
              simp at h

theorem processRow_state_some (row : PyVal) (rec : Rec)
    (h : processRow "state" row = .ok (some rec)) :
    ∃ n f v, rec = Rec.state n f v ∧ fipsMapped f = true := by
  unfold processRow at h
  cases hc : processRowCore "state" row with
  | error e =>
    rw [hc] at h
    cases e <;> simp at h
  | ok o =>
    rw [hc] at h
    simp only [Except.ok.injEq] at h
    exact processRowCore_state_some row rec (by rw [hc, h])

theorem processRows_state_mem (rows : List PyVal) (recs : List Rec)
    (h : processRows "state" rows = .ok recs) :
    ∀ r ∈ recs, ∃ n f v, r = Rec.state n f v ∧ fipsMapped f = true := by
  induction rows generalizing recs with
  | nil =>
    intro r hr
    unfold processRows at h
    simp only [Except.ok.injEq] at h
    rw [← h] at hr
    cases hr
  | cons row rest ih =>
    intro r hr
    unfold processRows at h
    cases hp : processRow "state" row with
    | error e => rw [hp] at h; simp at h
    | ok hd =>
      rw [hp] at h
      simp only [except_bind_ok] at h
      cases ht : processRows "state" rest with
      | error e => rw [ht] at h; simp at h
      | ok tl =>
        rw [ht] at h
        simp only [except_bind_ok] at h
        cases hd with
        | some r1 =>
          simp only [except_pure_def, Except.ok.injEq] at h
          rw [← h] at hr
          rcases List.mem_cons.mp hr with rfl | hr'
          · exact processRow_state_some row r hp
          · exact ih tl ht r hr'
        | none =>
          simp only [except_pure_def, Except.ok.injEq] at h
          rw [← h] at hr
          exact ih tl ht r hr

theorem processRowCore_county_no_skip (lvl : String) (row : PyVal)
    (hlvl : lvl ≠ "state") : processRowCore lvl row ≠ .ok Option.none := by
  intro h
  unfold processRowCore at h
  cases h0 : pyIndex row 0 with
  | error e => rw [h0] at h; simp at h
  | ok r0 =>
    rw [h0] at h
    simp only [except_bind_ok] at h
    cases hv : rowValue r0 with
    | error e => rw [hv] at h; simp at h
    | ok value =>
      rw [hv] at h
      simp only [except_bind_ok] at h
      cases h1 : pyIndex row 1 with
      | error e => rw [h1] at h; simp at h
      | ok name =>
        rw [h1] at h
        have hb : (lvl == "state") = false := beq_eq_false_iff_ne.mpr hlvl
        simp only [except_bind_ok, hb, Bool.false_eq_true, if_false] at h
        cases h2 : pyIndex row 2 with
        | error e => rw [h2] at h; simp at h
        | ok sr =>
          rw [h2] at h
          simp only [except_bind_ok] at h
          cases hz : pyZfill 2 sr with
          | error e => rw [hz] at h; simp at h
          | ok sf =>
            rw [hz] at h
            simp only [except_bind_ok] at h
            cases h3 : pyIndex row 3 with
            | error e => rw [h3] at h; simp at h
            | ok cr =>
              rw [h3] at h
              simp only [except_bind_ok] at h
              cases hz2 : pyZfill 3 cr with
              | error e => rw [hz2] at h; simp at h
              | ok cf =>
                rw [hz2] at h
                simp at h

/-- **C5.** In the normalized result of a state-scope fetch every record's
area code is a key of the jurisdiction map — rows whose (padded) code is
not in `FIPS_TO_ABBREV` are excluded; at county scope, no row is ever
filtered out by jurisdiction: the row body never `continue`s except through
the `ValueError`/`IndexError` handler. -/
theorem C5_jurisdiction_filter :
    (∀ rows recs, processRows "state" rows = .ok recs →
      ∀ r ∈ recs, ∃ n f v, r = Rec.state n f v ∧ fipsMapped f = true) ∧
    (∀ lvl row, lvl ≠ "state" → processRowCore lvl row ≠ .ok Option.none) :=
  ⟨fun rows recs h => processRows_state_mem rows recs h,
   fun lvl row hlvl => processRowCore_county_no_skip lvl row hlvl⟩

/-! ## Frame lemmas for `save_cache` (claim C9) -/

theorem dget_setAll_not_mem (entries init : List (String × α)) (k : String)
    (h : ∀ p ∈ entries, p.1 ≠ k) :
    dget (entries.foldl (fun a p => dset a p.1 p.2) init) k = dget init k := by
  induction entries generalizing init with
  | nil => rfl
  | cons e es ih =>
    simp only [List.foldl_cons]
    rw [ih _ (fun p hp => h p (List.mem_cons_of_mem e hp))]
    exact dget_dset_ne init e.1 e.2 k (h e (List.mem_cons_self e es))

theorem mem_of_dget_eq_some (d : List (String × α)) (k : String) (v : α)
    (h : dget d k = some v) : (k, v) ∈ d := by
  unfold dget at h
  cases hf : d.find? (fun p => p.1 == k) with
  | none => rw [hf] at h; cases h
  | some p =>
    rw [hf] at h
    have h2 : p.2 = v := by
      simpa using h
    have hk : p.1 = k := by
      have hb := List.find?_some hf
      simpa using hb
    have hmem := List.mem_of_find?_eq_some hf
    have hpkv : p = (k, v) := by
      obtain ⟨p1, p2⟩ := p
      simp only at hk h2
      rw [hk, h2]
    rwa [hpkv] at hmem

theorem dget_setAll_origin (entries init : List (String × α)) (k : String) (v : α)
    (h : dget (entries.foldl (fun a p => dset a p.1 p.2) init) k = some v) :
    (∃ p ∈ entries, p.1 = k ∧ p.2 = v) ∨ dget init k = some v := by
  induction entries generalizing init with
  | nil => exact Or.inr (by simpa using h)
  | cons e es ih =>
    simp only [List.foldl_cons] at h
    rcases ih _ h with ⟨p, hp, hk, hv⟩ | h2
    · exact Or.inl ⟨p, List.mem_cons_of_mem e hp, hk, hv⟩
    · by_cases he : e.1 = k
      · subst he
        rw [dget_dset_self] at h2
        exact Or.inl ⟨e, List.mem_cons_self e es, rfl, Option.some.inj h2⟩
      · rw [dget_dset_ne init e.1 e.2 k he] at h2
        exact Or.inr h2

/-- Every entry produced by loading a file comes from a nonempty row group
of that file, with the group's rows transformed by `loadRow`. -/
theorem loadFileEntries_char (b : Bool) (now : Nat) (f : FileContent)
    (p : String × List Rec) (hp : p ∈ loadFileEntries b now f) :
    ∃ l, f = FileContent.rows l ∧ (∃ r ∈ l, r.cache_key = p.1) ∧
      p.2 = (l.filter (fun r => r.cache_key == p.1)).map (loadRow b) ∧ p.2 ≠ [] := by
  cases f with
  | missing => cases hp
  | corrupt => cases hp
  | rows l =>
    cases l with
    | nil => cases hp
    | cons r0 rs =>
      rw [loadFileEntries_cons] at hp
      by_cases hfresh : now - r0.timestamp < cache_duration
      · rw [if_pos hfresh] at hp
        obtain ⟨k', hk', rfl⟩ := List.mem_map.mp hp
        obtain ⟨r, hr, hrk⟩ := (mem_uniqueKeys _ _).mp hk'
        refine ⟨r0 :: rs, rfl, ⟨r, hr, hrk⟩, rfl, ?_⟩
        intro hnil
        rw [List.map_eq_nil_iff] at hnil
        have hrmem : r ∈ (r0 :: rs).filter (fun r' => r'.cache_key == k') :=
          List.mem_filter.mpr ⟨hr, by simp [hrk]⟩
        rw [hnil] at hrmem
        cases hrmem
      · rw [if_neg hfresh] at hp
        cases hp

theorem loadFileEntries_key_pred (b : Bool) (now : Nat) (f : FileContent)
    (pred : String → Bool)
    (hall : ∀ l, f = FileContent.rows l → ∀ r ∈ l, pred r.cache_key = true) :
    ∀ p ∈ loadFileEntries b now f, pred p.1 = true := by
  intro p hp
  obtain ⟨l, rfl, ⟨r, hr, hrk⟩, _, _⟩ := loadFileEntries_char b now _ p hp
  exact hrk ▸ hall l rfl r hr

theorem mem_flatMap_rows (P : Dict) (now : Nat) (r : Row)
    (hr : r ∈ P.flatMap (fun q => q.2.map (fun rec => Row.mk q.1 now rec))) :
    ∃ q ∈ P, ∃ rec ∈ q.2, r = Row.mk q.1 now rec := by
  obtain ⟨q, hq, hrq⟩ := List.mem_flatMap.mp hr
  obtain ⟨rec, hrec, hrw⟩ := List.mem_map.mp hrq
  exact ⟨q, hq, rec, hrec, hrw.symm⟩

/-- In the flattened rows of a duplicate-free dictionary, the rows carrying
key `k` are exactly the rows of `k`'s own entry, in order. -/
theorem filter_flatMap_rows (P : Dict) (now : Nat) (k : String) (recs : List Rec)
    (hnd : (P.map Prod.fst).Nodup) (hmem : (k, recs) ∈ P) :
    (P.flatMap (fun q => q.2.map (fun rec => Row.mk q.1 now rec))).filter
      (fun r => r.cache_key == k) = recs.map (fun rec => Row.mk k now rec) := by
  induction P with
  | nil => cases hmem
  | cons e P ih =>
    rw [List.flatMap_cons, List.filter_append]
    simp only [List.map_cons, List.nodup_cons] at hnd
    rcases List.mem_cons.mp hmem with heq | hmem'
    · cases heq
      have h1 : ((recs.map (fun rec => Row.mk k now rec)).filter
          (fun r => r.cache_key == k)) = recs.map (fun rec => Row.mk k now rec) := by
        rw [List.filter_map]
        have hconst : ((fun r : Row => r.cache_key == k) ∘
            (fun rec => Row.mk k now rec)) = fun _ => true := by
          funext rec
          simp
        rw [hconst]
        simp
      have h2 : (P.flatMap (fun q => q.2.map (fun rec => Row.mk q.1 now rec))).filter
          (fun r => r.cache_key == k) = [] := by
        rw [List.filter_eq_nil_iff]
        intro r hr
        obtain ⟨q, hq, rec, hrec, hrw⟩ := mem_flatMap_rows P now r hr
        subst hrw
        intro hbeq
        have hq1 : q.1 = k := eq_of_beq hbeq
        apply hnd.1
        rw [← hq1]
        exact List.mem_map.mpr ⟨q, hq, rfl⟩
      rw [h1, h2, List.append_nil]
    · have hek : e.1 ≠ k := by
        intro heq
        apply hnd.1
        rw [heq]
        exact List.mem_map_of_mem Prod.fst hmem'
      have h1 : (e.2.map (fun rec => Row.mk e.1 now rec)).filter
          (fun r => r.cache_key == k) = [] := by
        rw [List.filter_eq_nil_iff]
        intro r hr
        obtain ⟨rec, hrec, hrw⟩ := List.mem_map.mp hr
        subst hrw
        intro hbeq
        exact hek (eq_of_beq hbeq)
      rw [h1, List.nil_append]
      exact ih hnd.2 hmem'

theorem save_cache_stateFile (now : Nat) (d : Dict) (fs : FileState) :
    (save_cache now d fs).stateFile =
      (if ((dictUpdate (load_cache now fs) d).filter
            (fun p => hasStateSuffix p.1)).isEmpty then
        fs.stateFile
      else if (((dictUpdate (load_cache now fs) d).filter
            (fun p => hasStateSuffix p.1)).flatMap
            (fun p => p.2.map (fun rec => Row.mk p.1 now rec))).isEmpty then
        fs.stateFile
      else
        FileContent.rows (((dictUpdate (load_cache now fs) d).filter
            (fun p => hasStateSuffix p.1)).flatMap
            (fun p => p.2.map (fun rec => Row.mk p.1 now rec)))) := by
  simp only [save_cache]
  repeat' split
  all_goals rfl

theorem save_cache_countyFile (now : Nat) (d : Dict) (fs : FileState) :
    (save_cache now d fs).countyFile =
      (if ((dictUpdate (load_cache now fs) d).filter
            (fun p => !hasStateSuffix p.1)).isEmpty then
        fs.countyFile
      else if (((dictUpdate (load_cache now fs) d).filter
            (fun p => !hasStateSuffix p.1)).flatMap
            (fun p => p.2.map (fun rec => Row.mk p.1 now rec))).isEmpty then
        fs.countyFile
      else
        FileContent.rows (((dictUpdate (load_cache now fs) d).filter
            (fun p => !hasStateSuffix p.1)).flatMap
            (fun p => p.2.map (fun rec => Row.mk p.1 now rec)))) := by
  simp only [save_cache]
  repeat' split
  all_goals rfl

theorem flatMap_rows_timestamp (P : Dict) (now : Nat) :
    ∀ r ∈ P.flatMap (fun q => q.2.map (fun rec => Row.mk q.1 now rec)),
      r.timestamp = now := by
  intro r hr
  obtain ⟨q, _, rec, _, hrw⟩ := mem_flatMap_rows P now r hr
  rw [hrw]

theorem flatMap_rows_key (P : Dict) (now : Nat) :
    ∀ r ∈ P.flatMap (fun q => q.2.map (fun rec => Row.mk q.1 now rec)),
      r.cache_key ∈ P.map Prod.fst := by
  intro r hr
  obtain ⟨q, hq, rec, _, hrw⟩ := mem_flatMap_rows P now r hr
  rw [hrw]
  exact List.mem_map.mpr ⟨q, hq, rfl⟩

theorem load_cache_nodupKeys (now : Nat) (fs : FileState) :
    ((load_cache now fs).map Prod.fst).Nodup := by
  unfold load_cache
  apply nodupKeys_setAll
  apply nodupKeys_setAll
  simp

/-- Every readable cache entry originates in one of the two files, as a
nonempty row group transformed by `loadRow`. -/
theorem load_cache_entry_src (now : Nat) (fs : FileState) (k : String) (recs : List Rec)
    (h : dget (load_cache now fs) k = some recs) :
    (∃ l, fs.countyFile = FileContent.rows l ∧ (∃ r ∈ l, r.cache_key = k) ∧
       recs = (l.filter (fun r => r.cache_key == k)).map (loadRow false) ∧ recs ≠ []) ∨
    (∃ l, fs.stateFile = FileContent.rows l ∧ (∃ r ∈ l, r.cache_key = k) ∧
       recs = (l.filter (fun r => r.cache_key == k)).map (loadRow true) ∧ recs ≠ []) := by
  unfold load_cache at h
  rcases dget_setAll_origin _ _ _ _ h with ⟨p, hp, hpk, hpv⟩ | h2
  · obtain ⟨l, hl, hex, hval, hnn⟩ := loadFileEntries_char false now fs.countyFile p hp
    left
    refine ⟨l, hl, ?_, ?_, ?_⟩
    · obtain ⟨r, hr, hrk⟩ := hex
      exact ⟨r, hr, hrk.trans hpk⟩
    · rw [← hpv, hval, hpk]
    · rw [← hpv]
      exact hnn
  · rcases dget_setAll_origin _ _ _ _ h2 with ⟨p, hp, hpk, hpv⟩ | h3
    · obtain ⟨l, hl, hex, hval, hnn⟩ := loadFileEntries_char true now fs.stateFile p hp
      right
      refine ⟨l, hl, ?_, ?_, ?_⟩
      · obtain ⟨r, hr, hrk⟩ := hex
        exact ⟨r, hr, hrk.trans hpk⟩
      · rw [← hpv, hval, hpk]
      · rw [← hpv]
        exact hnn
    · simp [dget] at h3

theorem recNorm_false_eq (r : Rec) : recNorm false r = r := rfl

theorem loadRow_mk (b : Bool) (k : String) (t : Nat) (rec : Rec) :
    loadRow b (Row.mk k t rec) = recNorm b rec := rfl

theorem cache_duration_pos : 0 < cache_duration := by decide

/-- The group of rows carrying key `k` in the flattened form of a
duplicate-free dictionary containing `(k, recs)` reads back (under either
file kind `b`) as `recs` normalized by `recNorm b`. -/
theorem dget_load_rows_of_mem (b : Bool) (P : Dict) (now : Nat) (k : String)
    (recs : List Rec) (hnd : (P.map Prod.fst).Nodup) (hmem : (k, recs) ∈ P)
    (hnn : recs ≠ []) (init : Dict) :
    dget ((loadFileEntries b now
        (FileContent.rows (P.flatMap (fun q => q.2.map (fun rec => Row.mk q.1 now rec))))).foldl
      (fun a p => dset a p.1 p.2) init) k = some (recs.map (recNorm b)) := by
  have hfilter := filter_flatMap_rows P now k recs hnd hmem
  have hrowsne : P.flatMap (fun q => q.2.map (fun rec => Row.mk q.1 now rec)) ≠ [] := by
    intro hnil
    rw [hnil, List.filter_nil] at hfilter
    exact hnn (List.map_eq_nil_iff.mp hfilter.symm)
  obtain ⟨r0, rs', hrows⟩ : ∃ r0 rs',
      P.flatMap (fun q => q.2.map (fun rec => Row.mk q.1 now rec)) = r0 :: rs' := by
    cases hrl : P.flatMap (fun q => q.2.map (fun rec => Row.mk q.1 now rec)) with
    | nil => exact absurd hrl hrowsne
    | cons a b => exact ⟨a, b, rfl⟩
  rw [hrows]
  have hts : r0.timestamp = now :=
    flatMap_rows_timestamp P now r0 (hrows ▸ List.mem_cons_self r0 rs')
  have hfresh : now - r0.timestamp < cache_duration := by
    rw [hts, Nat.sub_self]
    exact cache_duration_pos
  rw [hrows] at hfilter
  have hany : (r0 :: rs').any (fun r => r.cache_key == k) = true := by
    obtain ⟨rc, recs', hrecs⟩ : ∃ rc recs', recs = rc :: recs' := by
      cases recs with
      | nil => exact absurd rfl hnn
      | cons a b => exact ⟨a, b, rfl⟩
    have hrowmem : Row.mk k now rc ∈ (r0 :: rs').filter (fun r => r.cache_key == k) := by
      rw [hfilter, hrecs, List.map_cons]
      exact List.mem_cons_self _ _
    have hmf := List.mem_filter.mp hrowmem
    exact List.any_eq_true.mpr ⟨_, hmf.1, hmf.2⟩
  rw [dget_setAll]
  · rw [find?_loadFileEntries b now r0 rs' k hfresh, if_pos hany]
    have hval : ((r0 :: rs').filter (fun r => r.cache_key == k)).map (loadRow b) =
        recs.map (recNorm b) := by
      rw [hfilter, List.map_map]
      rfl
    rw [hval]
  · rw [loadFileEntries_keys b now r0 rs' hfresh]
    exact uniqueKeys_nodup _

def recA9 : Rec := Rec.state (.str "A") "01" (some 1)

def recB9 : Rec := Rec.state (.str "B") "02" (some 2)

def fsC9 : FileState := ⟨.rows [⟨"A_state", 0, recA9⟩], .missing⟩

/-- **C9, counterexample.** The claim says an expired entry is never
actively purged by operations on other keys.  In the code, `save_cache`
reloads the store (dropping everything the load deems expired) and rewrites
the file from that snapshot: here the persisted entry `"A_state"` is
expired at write time, and a put for the unrelated key `"B_state"` rewrites
the state file without any `"A_state"` row — the expired entry is purged by
another key's write. -/
theorem C9_claim_counterexample :
    fsC9.stateFile = FileContent.rows [⟨"A_state", 0, recA9⟩] ∧
    (save_cache cache_duration [("B_state", [recB9])] fsC9).stateFile =
      FileContent.rows [⟨"B_state", cache_duration, recB9⟩] ∧
    dget (load_cache cache_duration
      (save_cache cache_duration [("B_state", [recB9])] fsC9)) "A_state" = Option.none := by
  refine ⟨rfl, ?_, ?_⟩ <;> rfl

/-- **C9, amended.** A put affects only its own keys among the *readable*
entries: for a well-keyed store, every other key that is unexpired
(readable) at write time keeps exactly its records — they are re-serialized
(restamped with the write time) and read back unchanged.  Entries that are
expired at write time are not preserved (see the counterexample): the
rewrite only carries over what the write-time load returns. -/
theorem C9_put_preserves_unexpired_other_keys (now : Nat) (d : Dict) (fs : FileState)
    (k : String) (recs : List Rec)
    (hwf : wellKeyed fs)
    (hk : dget (load_cache now fs) k = some recs)
    (hnotin : ∀ p ∈ d, p.1 ≠ k) :
    dget (load_cache now (save_cache now d fs)) k = some recs := by
  have hM : dget (dictUpdate (load_cache now fs) d) k = some recs := by
    unfold dictUpdate
    rw [dget_setAll_not_mem d (load_cache now fs) k hnotin]
    exact hk
  have hndM : ((dictUpdate (load_cache now fs) d).map Prod.fst).Nodup := by
    unfold dictUpdate
    exact nodupKeys_setAll d (load_cache now fs) (load_cache_nodupKeys now fs)
  have hmemM : (k, recs) ∈ dictUpdate (load_cache now fs) d :=
    mem_of_dget_eq_some _ k recs hM
  have hcanon : recs.map (recNorm (hasStateSuffix k)) = recs ∧ recs ≠ [] := by
    rcases load_cache_entry_src now fs k recs hk with
      ⟨l, hl, hex, hval, hnn⟩ | ⟨l, hl, hex, hval, hnn⟩
    · obtain ⟨r, hr, hrk⟩ := hex
      have hsuf : hasStateSuffix k = false := by
        rw [← hrk]
        exact hwf.2 l hl r hr
      refine ⟨?_, hnn⟩
      rw [hsuf]
      exact (List.map_congr_left (fun r _ => recNorm_false_eq r)).trans (List.map_id recs)
    · obtain ⟨r, hr, hrk⟩ := hex
      have hsuf : hasStateSuffix k = true := by
        rw [← hrk]
        exact hwf.1 l hl r hr
      refine ⟨?_, hnn⟩
      rw [hsuf, hval]
      exact map_recNorm_map_loadRow true _
  obtain ⟨hcanon, hnn⟩ := hcanon
  by_cases hs : hasStateSuffix k = true
  · -- k lives in the state partition
    have hmemSD : (k, recs) ∈
        (dictUpdate (load_cache now fs) d).filter (fun p => hasStateSuffix p.1) :=
      List.mem_filter.mpr ⟨hmemM, by simpa using hs⟩
    have hndSD : (((dictUpdate (load_cache now fs) d).filter
        (fun p => hasStateSuffix p.1)).map Prod.fst).Nodup :=
      hndM.sublist ((List.filter_sublist _).map Prod.fst)
    have hSDne : ((dictUpdate (load_cache now fs) d).filter
        (fun p => hasStateSuffix p.1)) ≠ [] := by
      intro hnil
      rw [hnil] at hmemSD
      cases hmemSD
    have hrowsne : (((dictUpdate (load_cache now fs) d).filter
        (fun p => hasStateSuffix p.1)).flatMap
        (fun p => p.2.map (fun rec => Row.mk p.1 now rec))) ≠ [] := by
      intro hnil
      have hfilter := filter_flatMap_rows _ now k recs hndSD hmemSD
      rw [hnil, List.filter_nil] at hfilter
      exact hnn (List.map_eq_nil_iff.mp hfilter.symm)
    have hsf_eq : (save_cache now d fs).stateFile =
        FileContent.rows (((dictUpdate (load_cache now fs) d).filter
          (fun p => hasStateSuffix p.1)).flatMap
          (fun p => p.2.map (fun rec => Row.mk p.1 now rec))) := by
      rw [save_cache_stateFile, if_neg (by simpa using hSDne),
        if_neg (by simpa using hrowsne)]
    have hcounty_pred : ∀ p ∈ loadFileEntries false now (save_cache now d fs).countyFile,
        hasStateSuffix p.1 = false := by
      intro p hp
      obtain ⟨l, hl, ⟨r, hr, hrk⟩, _, _⟩ := loadFileEntries_char false now _ p hp
      rw [← hrk]
      rw [save_cache_countyFile] at hl
      by_cases h1 : (((dictUpdate (load_cache now fs) d).filter
          (fun p => !hasStateSuffix p.1))).isEmpty = true
      · rw [if_pos h1] at hl
        exact hwf.2 l hl r hr
      · rw [if_neg h1] at hl
        by_cases h2 : ((((dictUpdate (load_cache now fs) d).filter
            (fun p => !hasStateSuffix p.1))).flatMap
            (fun p => p.2.map (fun rec => Row.mk p.1 now rec))).isEmpty = true
        · rw [if_pos h2] at hl
          exact hwf.2 l hl r hr
        · rw [if_neg h2] at hl
          have hleq : (((dictUpdate (load_cache now fs) d).filter
              (fun p => !hasStateSuffix p.1))).flatMap
              (fun p => p.2.map (fun rec => Row.mk p.1 now rec)) = l := by
            injection hl
          rw [← hleq] at hr
          have hkey := flatMap_rows_key _ now r hr
          obtain ⟨q, hq, hq1⟩ := List.mem_map.mp hkey
          have hqpred := (List.mem_filter.mp hq).2
          rw [← hq1]
          simpa using hqpred
    have hcf_nok : ∀ p ∈ loadFileEntries false now (save_cache now d fs).countyFile,
        p.1 ≠ k := by
      intro p hp heq
      have hpred := hcounty_pred p hp
      rw [heq, hs] at hpred
      cases hpred
    simp only [load_cache]
    rw [dget_setAll_not_mem _ _ k hcf_nok, hsf_eq,
      dget_load_rows_of_mem true _ now k recs hndSD hmemSD hnn]
    rw [hs] at hcanon
    rw [hcanon]
  · -- k lives in the county partition
    have hs' : hasStateSuffix k = false := by
      cases hb : hasStateSuffix k with
      | true => exact absurd hb hs
      | false => rfl
    have hmemCD : (k, recs) ∈
        (dictUpdate (load_cache now fs) d).filter (fun p => !hasStateSuffix p.1) :=
      List.mem_filter.mpr ⟨hmemM, by simp [hs']⟩
    have hndCD : (((dictUpdate (load_cache now fs) d).filter
        (fun p => !hasStateSuffix p.1)).map Prod.fst).Nodup :=
      hndM.sublist ((List.filter_sublist _).map Prod.fst)
    have hCDne : ((dictUpdate (load_cache now fs) d).filter
        (fun p => !hasStateSuffix p.1)) ≠ [] := by
      intro hnil
      rw [hnil] at hmemCD
      cases hmemCD
    have hrowsne : (((dictUpdate (load_cache now fs) d).filter
        (fun p => !hasStateSuffix p.1)).flatMap
        (fun p => p.2.map (fun rec => Row.mk p.1 now rec))) ≠ [] := by
      intro hnil
      have hfilter := filter_flatMap_rows _ now k recs hndCD hmemCD
      rw [hnil, List.filter_nil] at hfilter
      exact hnn (List.map_eq_nil_iff.mp hfilter.symm)
    have hcf_eq : (save_cache now d fs).countyFile =
        FileContent.rows (((dictUpdate (load_cache now fs) d).filter
          (fun p => !hasStateSuffix p.1)).flatMap
          (fun p => p.2.map (fun rec => Row.mk p.1 now rec))) := by
      rw [save_cache_countyFile, if_neg (by simpa using hCDne),
        if_neg (by simpa using hrowsne)]
    simp only [load_cache]
    rw [hcf_eq, dget_load_rows_of_mem false _ now k recs hndCD hmemCD hnn]
    rw [hs'] at hcanon
    rw [hcanon]

theorem C9_witness :
    dget (load_cache 100 (save_cache 100 [("B_state", [recB9])]
        ⟨.rows [⟨"A_state", 100, recA9⟩], .missing⟩)) "A_state" = some [recA9] :=
  C9_put_preserves_unexpired_other_keys 100 [("B_state", [recB9])]
    ⟨.rows [⟨"A_state", 100, recA9⟩], .missing⟩ "A_state" [recA9]
    ⟨fun l hl => by cases hl; decide, fun l hl => by cases hl⟩
    rfl
    (by decide)

theorem C5_witness :
    (∀ r ∈ [Rec.state (.str "Alabama") "01" (some 5)],
      ∃ n f v, r = Rec.state n f v ∧ fipsMapped f = true) ∧
    processRowCore "06" (.list []) ≠ .ok Option.none :=
  ⟨C5_jurisdiction_filter.1 [.list [.str "5", .str "Alabama", .str "1"]]
      [Rec.state (.str "Alabama") "01" (some 5)] rfl,
   C5_jurisdiction_filter.2 "06" (.list []) (by decide)⟩

end SDOH
